import Mathlib

/-!
Verification of the earthquake-map rendering pipeline in
`static/js/logic.js` of the leaflet-challenge repository.

The JavaScript numbers that flow through the pipeline (depths, magnitudes,
radii, opacities) are modelled as rationals (`ℚ`); feature timestamps as
integers; colors and labels as strings.  The two third-party widgets the
script calls (the chroma color-scale utility and the Leaflet map widget)
are not part of the repository: the chroma `limits` computation is
modelled from the spec (see `chromaLimits`), the chroma scale itself is
threaded as an opaque function parameter, and a Leaflet circle marker is
modelled as the record of options `_pointToLayer` passes to
`L.circleMarker`.
-/

/-- A GeoJSON point feature as consumed by logic.js:
`geometry.coordinates = [lon, lat, depth]`, `properties = {mag, place, time}`
with `time` in epoch milliseconds. -/
structure Feature where
  lon : ℚ
  lat : ℚ
  depth : ℚ
  mag : ℚ
  place : String
  time : ℤ
deriving DecidableEq, Repr

/-- The fixed six-color palette `gradientColors` (logic.js line 5). -/
def gradientColors : List String :=
  ["#9AFF9A", "#5AFF5A", "#28C428", "#FF7878", "#FF3232", "#FF0000"]

/-- `getDepths` (logic.js lines 31-36): one depth per feature, in order;
`value > 0 ? value : 0.01`. -/
def getDepths (features : List Feature) : List ℚ :=
  features.map (fun element =>
    let value := element.depth
    if value > 0 then value else 1/100)

/-- `radialMagnitude` (logic.js lines 50-56): radius 2 below magnitude 0.5,
otherwise `magnitude * 4`. -/
def radialMagnitude (magnitude : ℚ) : ℚ :=
  if magnitude < 1/2 then 2 else magnitude * 4

/-- The options record of the `L.circleMarker` built by `_pointToLayer`
(logic.js lines 71-79). -/
structure Marker where
  position : ℚ × ℚ
  color : String
  fillColor : String
  fillOpacity : ℚ
  stroke : Bool
  radius : ℚ
deriving DecidableEq, Repr

/-- `colorDepth` (logic.js lines 43-45): applies the module-level chroma
scale to a depth.  The scale, a module global in the source, is threaded
here as an explicit function parameter. -/
def colorDepth (chromaScale : ℚ → String) (depth : ℚ) : String :=
  chromaScale depth

/-- `_pointToLayer` (logic.js lines 71-79): marker at the given latLong with
stroke color and fill color both `colorDepth(feature.geometry.coordinates[2])`
(the raw depth), fill opacity 0.8, no stroke, radius from `radialMagnitude`
of the feature's magnitude. -/
def pointToLayer (chromaScale : ℚ → String) (feature : Feature)
    (latLong : ℚ × ℚ) : Marker :=
  { position := latLong
    color := colorDepth chromaScale feature.depth
    fillColor := colorDepth chromaScale feature.depth
    fillOpacity := 8/10
    stroke := false
    radius := radialMagnitude feature.mag }

/-- Modelled from the spec: `chroma.limits(allDepths, 'l', n)` (called at
logic.js line 17) is code of the external color-scale utility, which the
repository does not contain.  Spec 4.2 describes its output as an ordered
sequence of `palette_size - 1` boundary values chosen so each bin receives a
comparable share of the observed distribution (equal-share quantile cut
points over the sorted data), and spec 7 says a color-scale construction
over a degenerate input propagates as a failure, modelled here as `none`
on an empty input. -/
def chromaLimits (data : List ℚ) (k : ℕ) : Option (List ℚ) :=
  if data.isEmpty then none
  else some ((List.range k).map (fun i =>
    (List.insertionSort (· ≤ ·) data).getD ((i + 1) * (data.length - 1) / k) 0))

/-- Modelled from the spec: the bin-locating color map of spec 4.2(b)
(`chroma.scale(gradientColors).domain(colorDomain)`, logic.js line 18, is
external library code): a depth is sent to the palette color of the bin it
falls in, the bin index being the number of boundaries not exceeding it. -/
def colorOfDepth (colorDomain : List ℚ) (depth : ℚ) : String :=
  gradientColors.getD (colorDomain.countP (fun b => decide (b ≤ depth))) "#FF0000"

/-- Two-digit zero padding used by the fraction part of the legend's
number format. -/
def pad2 (k : ℕ) : String :=
  if k < 10 then "0" ++ toString k else toString k

/-- Rounding to hundredths, half away from zero, as `toLocaleString` with
`maximumFractionDigits: 2` does: the result is the numerator over 100. -/
def round100 (q : ℚ) : ℤ :=
  if 0 ≤ q then ⌊q * 100 + 1/2⌋ else -⌊-q * 100 + 1/2⌋

/-- Integer part (with sign) of the legend's two-decimal number format. -/
def fmtTwoInt (q : ℚ) : String :=
  (if round100 q < 0 then "-" else "") ++ toString ((round100 q).natAbs / 100)

/-- Fraction part of the legend's two-decimal number format: exactly the
two digits after the decimal separator. -/
def fmtTwoFrac (q : ℚ) : String :=
  pad2 ((round100 q).natAbs % 100)

/-- `value.toLocaleString(undefined, {maximumFractionDigits: 2,
minimumFractionDigits: 2})` (logic.js line 103), modelled with a dot as
decimal separator and without grouping separators (the host-locale
presentation details are abstracted; the digit counts are not). -/
def toLocaleString2 (q : ℚ) : String :=
  fmtTwoInt q ++ "." ++ fmtTwoFrac q

/-- The legend control built by `createLegend` (logic.js lines 92-119):
its title heading, its CSS gradient color list, and its list of `<li>`
labels, one per entry of the color domain, in order. -/
structure Legend where
  title : String
  gradient : List String
  labels : List String
deriving DecidableEq, Repr

/-- `createLegend` (logic.js lines 92-119).  The source iterates
`colorDomain.forEach((value, index) => ...)`, displaying `"0.01 +"` at
index 0 and `toLocaleString` with two fraction digits elsewhere; the
indexed iteration is modelled as a map over `List.range`. -/
def createLegend (colorDomain : List ℚ) : Legend :=
  { title := "Depth (km)"
    gradient := gradientColors
    labels := (List.range colorDomain.length).map (fun index =>
      if index = 0 then "0.01 +" else toLocaleString2 (colorDomain.getD index 0)) }

/-- The module-level mutable state of logic.js: `colorDomain` (line 6);
`chromaScale` (line 7) is determined by it, via the fixed palette, and is
not tracked separately. -/
structure ModuleState where
  colorDomain : Option (List ℚ)
deriving DecidableEq, Repr

/-- The visual output of one render pass: the marker overlay and the
legend. -/
structure RenderOutput where
  markers : List Marker
  legend : Legend
deriving DecidableEq, Repr

/-- `init` (logic.js lines 10-25) run on an already-fetched feature list:
extract depths, build the color domain with `chroma.limits` over them,
build the chroma scale on that domain, turn every feature into a marker
(Leaflet hands `_pointToLayer` the feature's latLng), and build the legend
from the module-level `colorDomain`.  A color-scale construction failure
propagates: no output, module state unchanged. -/
def runInit (s : ModuleState) (features : List Feature) :
    ModuleState × Option RenderOutput :=
  match chromaLimits (getDepths features) (gradientColors.length - 1) with
  | none => (s, none)
  | some cd =>
    (⟨some cd⟩,
      some { markers := features.map (fun f =>
               pointToLayer (colorOfDepth cd) f (f.lat, f.lon))
             legend := createLegend cd })

/-- A concrete feature with depth strictly between 0 and 0.01. -/
def fShallow : Feature :=
  { lon := 0, lat := 0, depth := 1/200, mag := 1, place := "x", time := 0 }

/-- A concrete feature with negative depth. -/
def fNeg : Feature :=
  { lon := 0, lat := 0, depth := -5, mag := 1, place := "x", time := 0 }

/-- A concrete constant color scale, used to instantiate theorems that are
parametric in the chroma scale. -/
def constColor : ℚ → String := fun _ => "c"

section Theorems

/-- C1: `getDepths` returns one depth per feature in the same order, each
output being the source depth `d` when `d > 0` and `0.01` otherwise. -/
theorem getDepths_per_feature (fs : List Feature) (i : ℕ) :
    (getDepths fs).length = fs.length ∧
    (getDepths fs)[i]? = fs[i]?.map (fun f => if 0 < f.depth then f.depth else 1/100) := by
  constructor
  · simp [getDepths]
  · simp [getDepths]

/-- C2 counterexample: a feature of depth 0.005 is extracted as 0.005, not
as `max(0.005, 0.01) = 0.01`, and the output is below the claimed floor
0.01. -/
theorem getDepths_below_floor :
    getDepths [fShallow] = [1/200] ∧
    ((1/200 : ℚ) ≠ max (1/200 : ℚ) (1/100)) ∧
    ¬ (∀ q ∈ getDepths [fShallow], (1/100 : ℚ) ≤ q) := by
  refine ⟨?_, by norm_num, ?_⟩
  · norm_num [getDepths, fShallow]
  · intro h
    have := h (1/200) (by norm_num [getDepths, fShallow])
    norm_num at this

/-- C2 amended: every extracted depth is strictly positive; pointwise, a
source depth strictly between 0 and 0.01 is kept as-is (so the output can
fall below 0.01), and every other source depth `d` is extracted as
`max(d, 0.01)`. -/
theorem getDepths_pos_max (fs : List Feature) (i : ℕ) :
    (∀ q ∈ getDepths fs, 0 < q) ∧
    (getDepths fs)[i]? = fs[i]?.map (fun f =>
      if 0 < f.depth ∧ f.depth < 1/100 then f.depth else max f.depth (1/100)) := by
  constructor
  · intro q hq
    simp only [getDepths, List.mem_map] at hq
    obtain ⟨f', _, rfl⟩ := hq
    by_cases h : (0 : ℚ) < f'.depth
    · rw [if_pos h]
      exact h
    · rw [if_neg h]
      norm_num
  · rw [getDepths, List.getElem?_map]
    cases hfs : fs[i]? with
    | none => rfl
    | some f =>
      rw [Option.map_some', Option.map_some']
      congr 1
      by_cases h1 : (0 : ℚ) < f.depth
      · by_cases h2 : f.depth < (1/100 : ℚ)
        · rw [if_pos h1, if_pos ⟨h1, h2⟩]
        · rw [if_pos h1, if_neg (fun hc => h2 hc.2),
            max_eq_left (le_of_not_lt h2)]
      · rw [if_neg h1, if_neg (fun hc => h1 hc.1),
          max_eq_right (le_trans (le_of_not_lt h1) (by norm_num))]

/-- C3: `radialMagnitude` is 2 below magnitude 0.5, `4 * m` at or above
0.5, and 2 at the boundary 0.5. -/
theorem radialMagnitude_cases (m : ℚ) :
    (m < 1/2 → radialMagnitude m = 2) ∧
    (1/2 ≤ m → radialMagnitude m = 4 * m) ∧
    radialMagnitude (1/2) = 2 := by
  refine ⟨fun h => by rw [radialMagnitude, if_pos h], fun h => ?_,
    by norm_num [radialMagnitude]⟩
  rw [radialMagnitude, if_neg (not_lt.mpr h), mul_comm]

/-- C3 witness at magnitudes 0.25 and 3. -/
theorem radialMagnitude_cases_witness :
    ((1/4 : ℚ) < 1/2 ∧ radialMagnitude (1/4) = 2) ∧
    ((1/2 : ℚ) ≤ 3 ∧ radialMagnitude 3 = 4 * 3) :=
  ⟨⟨by norm_num, (radialMagnitude_cases (1/4)).1 (by norm_num)⟩,
   ⟨by norm_num, (radialMagnitude_cases 3).2.1 (by norm_num)⟩⟩

/-- C9: every radius is at least 2, and `radialMagnitude` is monotone
non-decreasing. -/
theorem radialMagnitude_mono (m₁ m₂ : ℚ) (h : m₁ ≤ m₂) :
    2 ≤ radialMagnitude m₁ ∧ radialMagnitude m₁ ≤ radialMagnitude m₂ := by
  unfold radialMagnitude
  constructor <;> split_ifs <;> push_neg at * <;> linarith

/-- C9 witness at magnitudes 1 and 2. -/
theorem radialMagnitude_mono_witness :
    (1 : ℚ) ≤ 2 ∧ 2 ≤ radialMagnitude 1 ∧ radialMagnitude 1 ≤ radialMagnitude 2 :=
  ⟨by norm_num, (radialMagnitude_mono 1 2 (by norm_num)).1,
    (radialMagnitude_mono 1 2 (by norm_num)).2⟩

/-- C6: for any chroma scale, the marker built by `_pointToLayer` has
stroke color and fill color both the scale applied to the feature's depth,
no stroke outline, fill opacity 0.8, and radius `radialMagnitude` of the
feature's magnitude. -/
theorem pointToLayer_marker (scale : ℚ → String) (f : Feature) (latLong : ℚ × ℚ) :
    (pointToLayer scale f latLong).color = scale f.depth ∧
    (pointToLayer scale f latLong).fillColor = scale f.depth ∧
    (pointToLayer scale f latLong).stroke = false ∧
    (pointToLayer scale f latLong).fillOpacity = 8/10 ∧
    (pointToLayer scale f latLong).radius = radialMagnitude f.mag :=
  ⟨rfl, rfl, rfl, rfl, rfl⟩

/-- C10: the marker color is computed from the raw `coordinates[2]` depth,
so a feature with non-positive raw depth passes to the color function a
value below 0.01 that differs from its clamped effective depth (which
`getDepths` would give as 0.01). -/
theorem pointToLayer_raw_depth (scale : ℚ → String) (f : Feature)
    (latLong : ℚ × ℚ) (h : f.depth ≤ 0) :
    (pointToLayer scale f latLong).color = scale f.depth ∧
    f.depth < 1/100 ∧
    getDepths [f] = [1/100] ∧
    f.depth ≠ 1/100 := by
  refine ⟨rfl, by linarith, ?_, ?_⟩
  · simp [getDepths, not_lt.mpr h]
  · intro hc
    rw [hc] at h
    norm_num at h

/-- C10 witness at a feature of depth -5 and a constant color scale. -/
theorem pointToLayer_raw_depth_witness :
    fNeg.depth ≤ 0 ∧
    ((pointToLayer constColor fNeg (0, 0)).color = constColor fNeg.depth ∧
      fNeg.depth < 1/100 ∧
      getDepths [fNeg] = [1/100] ∧
      fNeg.depth ≠ 1/100) :=
  ⟨by norm_num [fNeg],
    pointToLayer_raw_depth constColor fNeg (0, 0) (by norm_num [fNeg])⟩

/-- Helper: `pad2` always yields a two-character string on inputs below
100. -/
theorem pad2_length : ∀ k < 100, (pad2 k).length = 2 := by decide

/-- Helper: the fraction part of the legend's number format has exactly
two digits. -/
theorem fmtTwoFrac_length (q : ℚ) : (fmtTwoFrac q).length = 2 :=
  pad2_length _ (Nat.mod_lt _ (by norm_num))

/-- Helper: on a non-empty input and a positive class count, the modelled
`chroma.limits` succeeds with exactly `k` boundaries in non-decreasing
order. -/
theorem chromaLimits_sorted (data : List ℚ) (k : ℕ) (hk : 0 < k)
    (hdata : data ≠ []) :
    ∃ bs, chromaLimits data k = some bs ∧ bs.length = k ∧
      bs.Sorted (· ≤ ·) := by
  have hne : ¬ data.isEmpty := by simpa [List.isEmpty_iff] using hdata
  have hlen : 0 < data.length := List.length_pos.mpr hdata
  have hslen : (List.insertionSort (· ≤ ·) data).length = data.length :=
    List.length_insertionSort _ _
  have hsor : (List.insertionSort (· ≤ ·) data).Sorted (· ≤ ·) :=
    List.sorted_insertionSort _ _
  have hidx : ∀ m, m < k → (m + 1) * (data.length - 1) / k ≤ data.length - 1 := by
    intro m hm
    calc (m + 1) * (data.length - 1) / k
        ≤ k * (data.length - 1) / k :=
          Nat.div_le_div_right (Nat.mul_le_mul_right _ hm)
      _ = data.length - 1 := Nat.mul_div_cancel_left _ hk
  refine ⟨_, by rw [chromaLimits, if_neg hne], by simp, ?_⟩
  rw [List.Sorted, List.pairwise_iff_getElem]
  intro i j hi hj hij
  simp only [List.length_map, List.length_range] at hi hj
  rw [List.getElem_map, List.getElem_map, List.getElem_range, List.getElem_range]
  have hbi : (i + 1) * (data.length - 1) / k < (List.insertionSort (· ≤ ·) data).length := by
    rw [hslen]; exact lt_of_le_of_lt (hidx i hi) (by omega)
  have hbj : (j + 1) * (data.length - 1) / k < (List.insertionSort (· ≤ ·) data).length := by
    rw [hslen]; exact lt_of_le_of_lt (hidx j hj) (by omega)
  rw [List.getD_eq_getElem?_getD, List.getD_eq_getElem?_getD,
    List.getElem?_eq_getElem hbi, List.getElem?_eq_getElem hbj,
    Option.getD_some, Option.getD_some]
  have hmono : (i + 1) * (data.length - 1) / k ≤ (j + 1) * (data.length - 1) / k :=
    Nat.div_le_div_right (Nat.mul_le_mul_right _ (by omega))
  obtain hlt | heq := hmono.lt_or_eq
  · exact List.pairwise_iff_getElem.mp hsor _ _ hbi hbj hlt
  · exact le_of_eq (by congr 1)

/-- C4: for every non-empty feature sequence, the color domain built by the
(spec-modelled) `chroma.limits` over the extracted depths is a
monotonically non-decreasing sequence of exactly `palette_size - 1 = 5`
boundary values. -/
theorem colorDomain_boundaries (fs : List Feature) (h : fs ≠ []) :
    ∃ bs, chromaLimits (getDepths fs) (gradientColors.length - 1) = some bs ∧
      bs.length = 5 ∧ bs.length = gradientColors.length - 1 ∧
      bs.Sorted (· ≤ ·) := by
  have hne : getDepths fs ≠ [] := by
    simpa [getDepths] using h
  obtain ⟨bs, h1, h2, h3⟩ :=
    chromaLimits_sorted (getDepths fs) (gradientColors.length - 1)
      (by norm_num [gradientColors]) hne
  exact ⟨bs, h1, by rw [h2]; rfl, by rw [h2], h3⟩

/-- C4 witness at a one-feature list. -/
theorem colorDomain_boundaries_witness :
    ([fNeg] : List Feature) ≠ [] ∧
    ∃ bs, chromaLimits (getDepths [fNeg]) (gradientColors.length - 1) = some bs ∧
      bs.length = 5 ∧ bs.length = gradientColors.length - 1 ∧
      bs.Sorted (· ≤ ·) :=
  ⟨by simp, colorDomain_boundaries [fNeg] (by simp)⟩

/-- C5: for every color domain, the legend is titled "Depth (km)", labels
its first boundary with the literal "0.01 +", and labels every other
boundary with the two-decimal format, whose fraction part always has
exactly two digits. -/
theorem createLegend_labels (cd : List ℚ) (i : ℕ) (h : i < cd.length) :
    (createLegend cd).title = "Depth (km)" ∧
    (createLegend cd).labels[i]? =
      some (if i = 0 then "0.01 +" else toLocaleString2 (cd.getD i 0)) ∧
    (fmtTwoFrac (cd.getD i 0)).length = 2 := by
  refine ⟨rfl, ?_, fmtTwoFrac_length _⟩
  simp [createLegend, List.getElem?_range h]

/-- C5 witness at the color domain [1.5, 5] and index 0. -/
theorem createLegend_labels_witness :
    0 < ([(3 : ℚ)/2, 5] : List ℚ).length ∧
    ((createLegend [(3 : ℚ)/2, 5]).title = "Depth (km)" ∧
      (createLegend [(3 : ℚ)/2, 5]).labels[0]? = some "0.01 +" ∧
      (fmtTwoFrac (([(3 : ℚ)/2, 5] : List ℚ).getD 0 0)).length = 2) := by
  refine ⟨by norm_num, ?_⟩
  have h := createLegend_labels [(3 : ℚ)/2, 5] 0 (by norm_num)
  simpa using h

/-- C7 counterexample: on an empty feature collection, `init` still hands
the (empty) extracted depth list to the color-scale builder — there is no
emptiness guard — and the construction fails, so the pipeline produces no
output at all rather than a degenerate legend and empty overlay. -/
theorem runInit_empty_fails :
    (runInit ⟨none⟩ []).2 = none ∧
    chromaLimits (getDepths []) (gradientColors.length - 1) = none :=
  ⟨rfl, rfl⟩

/-- C7 amended: on an empty feature collection the pipeline attempts
color-scale construction over the empty depth set (no guard exists), the
construction fails, and initialization aborts: no render output, module
state unchanged. -/
theorem runInit_empty_aborts (s : ModuleState) :
    (runInit s []).2 = none ∧ (runInit s []).1 = s :=
  ⟨rfl, rfl⟩

/-- C8: the render pipeline is a deterministic function of the feed: its
output does not depend on the prior module state, and running it a second
time on the same (not refetched) feed yields the identical markers,
colors, and legend. -/
theorem runInit_deterministic (feed : List Feature) (s₁ s₂ : ModuleState) :
    (runInit s₁ feed).2 = (runInit s₂ feed).2 ∧
    (runInit s₁ feed).2 = (runInit (runInit s₁ feed).1 feed).2 := by
  cases h : chromaLimits (getDepths feed) (gradientColors.length - 1) <;>
    simp [runInit, h]

end Theorems
